import Mathlib

/-!
Verification of the AUTHORS.md maintenance script
(`.github/scripts/update_authors.py`): the file-extension classifier and the
line-oriented attribution-document updater, embedded shallowly.  A document is
a `List String`, one element per line, as produced by Python's `splitlines()`.
Python string tests are embedded at character level over `String.data`.
-/

namespace UpdateAuthors

/-- Python `s.startswith(p)`: `p` is a character-level prefix of `s`. -/
def pyStartsWith (s p : String) : Bool := decide (p.data <+: s.data)

/-- Python `sub in s`: `sub` occurs contiguously inside `s`. -/
def pyIn (sub s : String) : Bool := decide (sub.data <:+: s.data)

/-- Python `s.endswith(p)`: `p` is a character-level suffix of `s`. -/
def pyEndsWith (s p : String) : Bool := decide (p.data <:+ s.data)

/-- Python `s.lower()` (character-wise lowercasing). -/
def pyLower (s : String) : String := ⟨s.data.map Char.toLower⟩

/-! Configuration tables (script lines 18-25). -/

def ENGINEERING_EXTENSIONS : List String :=
  [".gd", ".go", ".cpp", ".h", ".cs", ".rs", ".py", ".sh", ".bat", ".yml",
   ".yaml", ".sql", ".json", ".xml", ".ini", ".cfg", ".toml"]

def ENGINEERING_CRITRIA : List String := ["added", "modified", "removed", "renamed"]

def ART_EXTENSIONS : List String :=
  [".glb", ".gltf", ".fbx", ".png", ".jpg", ".jpeg", ".tga", ".wav", ".mp3",
   ".ogg", ".psd", ".xcf"]

def ART_CRITRIA : List String := ["added", "modified", "removed", "renamed"]

def DESIGN_EXTENSIONS : List String := [".tscn", ".tres"]

def DESIGN_CRITRIA : List String := ["added", "modified", "removed", "renamed"]

def COMMUNITY_EXTENSIONS : List String := [".md", ".translation"]

def COMMUNITY_CRITRIA : List String := ["added", "modified", "removed", "renamed"]

/-! The classifier. -/

/-- One comparison step of Python `max(..., key=...)`: the running best is
replaced only when the candidate's score is strictly greater, so among equal
scores the earliest element wins. -/
def maxStep (b q : String × Nat) : String × Nat := if q.2 > b.2 then q else b

/-- Python `max(categories, key=categories.get)` over the four categories in
dict insertion order (Engineering, Art, Design, Community & Support). -/
def firstMax4 (p1 p2 p3 p4 : String × Nat) : String :=
  (maxStep (maxStep (maxStep p1 p2) p3) p4).1

/-- Number of extensions of `exts` that the lowercased path `f` ends with;
`detect_category` increments a category once per matching extension. -/
def extHits (exts : List String) (f : String) : Nat :=
  exts.countP fun e => pyEndsWith (pyLower f) e

/-- Accumulated Engineering count of `detect_category`. -/
def engScore (files_changed : List String) : Nat :=
  (files_changed.map (extHits ENGINEERING_EXTENSIONS)).sum

/-- Accumulated Art count of `detect_category`. -/
def artScore (files_changed : List String) : Nat :=
  (files_changed.map (extHits ART_EXTENSIONS)).sum

/-- Accumulated Design count of `detect_category`. -/
def designScore (files_changed : List String) : Nat :=
  (files_changed.map (extHits DESIGN_EXTENSIONS)).sum

/-- Accumulated Community & Support count of `detect_category`. -/
def communityScore (files_changed : List String) : Nat :=
  (files_changed.map (extHits COMMUNITY_EXTENSIONS)).sum

/-- `detect_category` (script lines 58-76, first classifier variant): count
extension matches per category over all changed files and return the dominant
category via `max` over the dict. -/
def detect_category (files_changed : List String) : String :=
  firstMax4
    ("Engineering", engScore files_changed)
    ("Art", artScore files_changed)
    ("Design", designScore files_changed)
    ("Community & Support", communityScore files_changed)

/-- One file's contribution to a category in the evolved classifier (script
lines 126-133): the lowercased filename ends with one of the category's
extensions and the lowercased status is in the category's criteria list.
A file is `(filename, status)`. -/
def fileMatches (exts crit : List String) (file : String × String) : Bool :=
  (exts.any fun e => pyEndsWith (pyLower file.1) e) && crit.contains (pyLower file.2)

/-- Score of one category in the evolved classifier: at most one increment per
changed file. -/
def evolvedScore (exts crit : List String) (files : List (String × String)) : Nat :=
  files.countP (fileMatches exts crit)

/-- The classification embedded in `update_authors_md` (script lines 116-141,
evolved variant): with an empty file list the score dict stays empty and the
initial `category = "Community & Support"` stands; otherwise every file's
`setdefault` calls have populated the dict with all four categories in order
Engineering, Art, Design, Community & Support, and `max` picks the first
maximal one. -/
def classifyEvolved (files : List (String × String)) : String :=
  match files with
  | [] => "Community & Support"
  | _ :: _ =>
    firstMax4
      ("Engineering", evolvedScore ENGINEERING_EXTENSIONS ENGINEERING_CRITRIA files)
      ("Art", evolvedScore ART_EXTENSIONS ART_CRITRIA files)
      ("Design", evolvedScore DESIGN_EXTENSIONS DESIGN_CRITRIA files)
      ("Community & Support", evolvedScore COMMUNITY_EXTENSIONS COMMUNITY_CRITRIA files)

/-! The document updater (script lines 144-198). -/

/-- `f"- [{display_name}]({profile_url})"` (script line 145). -/
def contributor_format (display_name profile_url : String) : String :=
  "- [" ++ display_name ++ "](" ++ profile_url ++ ")"

/-- `f"[#{pr_number}]({pr_url})"` (script line 147). -/
def contributor_ref_tag_format (pr_number pr_url : String) : String :=
  "[#" ++ pr_number ++ "](" ++ pr_url ++ ")"

/-- The category heading line `f"### {category}"` (script line 151). -/
def headingFor (category : String) : String := "### " ++ category

/-- Python `content.index(s)`: index of the first line equal to `s`, `none`
when absent (the `ValueError` case). -/
def indexOfLine : List String → String → Option Nat
  | [], _ => none
  | l :: ls, s => if l = s then some 0 else (indexOfLine ls s).map (· + 1)

/-- The contributor search loop (script lines 157-163), run on the lines after
the heading: walk forward, stop at the next line starting with the heading
marker, and return the offset of the first line containing `fmt`. -/
def findContrib (fmt : String) : List String → Option Nat
  | [] => none
  | l :: ls =>
    if pyStartsWith l "### " then none
    else if pyIn fmt l then some 0
    else (findContrib fmt ls).map (· + 1)

/-- The reference-block scan (script lines 169-176), run on the lines after
the contributor entry: walk through the contiguous run of lines starting with
the blockquote marker; the result is the offset where the walk stopped,
paired with whether a line containing `tag` was hit (the `did_nothing`
flag). -/
def scanRefs (tag : String) : List String → Nat × Bool
  | [] => (0, false)
  | l :: ls =>
    if pyStartsWith l ">" then
      if pyIn tag l then (0, true)
      else ((scanRefs tag ls).1 + 1, (scanRefs tag ls).2)
    else (0, false)

/-- The insertion-point scan of the new-contributor branch (script lines
182-184), run on the lines after the heading: length of the longest prefix
with no line starting with the heading marker. -/
def findSectionEnd : List String → Nat
  | [] => 0
  | l :: ls => if pyStartsWith l "### " then 0 else findSectionEnd ls + 1

/-- Python `content.insert` at consecutive positions `i, i+1, ...`
(`i ≤ content.length`): splice `newLines` in at position `i`. -/
def insertAt (content : List String) (i : Nat) (newLines : List String) : List String :=
  content.take i ++ newLines ++ content.drop i

/-- The one failure condition of the updater: `content.index` raised
`ValueError` because the heading line is absent (script lines 150-154). -/
inductive UpdateError
  | categoryNotFound
deriving DecidableEq, Repr

/-- Result of the pure core of the updater: the new line sequence and whether
it differs from the input (`changed = !did_nothing`). -/
structure UpdateResult where
  content : List String
  changed : Bool
deriving DecidableEq, Repr

instance {α β : Type} [DecidableEq α] [DecidableEq β] : DecidableEq (Except α β) :=
  fun a b =>
    match a, b with
    | .error x, .error y =>
      if h : x = y then .isTrue (by rw [h]) else .isFalse (by simp [h])
    | .ok x, .ok y =>
      if h : x = y then .isTrue (by rw [h]) else .isFalse (by simp [h])
    | .error _, .ok _ => .isFalse (by simp)
    | .ok _, .error _ => .isFalse (by simp)

/-- The pure core of `update_authors_md` (script lines 144-198): locate the
category heading, search the section for the contributor line, then either
report the tag already present (`changed = false`), append one reference line
after the contributor's contiguous blockquote run, or insert a fresh
contributor block at the end of the section, just before the next heading. -/
def applyContribution (content : List String)
    (category display_name profile_url pr_number pr_url : String) :
    Except UpdateError UpdateResult :=
  match indexOfLine content (headingFor category) with
  | none => .error .categoryNotFound
  | some h =>
    match findContrib (contributor_format display_name profile_url)
        (content.drop (h + 1)) with
    | some k =>
      if (scanRefs (contributor_ref_tag_format pr_number pr_url)
          (content.drop (h + 1 + k + 1))).2 then
        .ok ⟨content, false⟩
      else
        .ok ⟨insertAt content
          (h + 1 + k + 1 +
            (scanRefs (contributor_ref_tag_format pr_number pr_url)
              (content.drop (h + 1 + k + 1))).1)
          ["> " ++ contributor_ref_tag_format pr_number pr_url], true⟩
    | none =>
      .ok ⟨insertAt content (h + 1 + findSectionEnd (content.drop (h + 1)))
        [contributor_format display_name profile_url, "> PRs: ",
         "> " ++ contributor_ref_tag_format pr_number pr_url, ""], true⟩

/-! Process-level model: exit discipline, local write and remote push of
`update_authors_md` and of the `__main__` block. -/

/-- How an invocation of the script terminates: a normal return (process exit
code 0) or an uncaught exception (non-zero exit). -/
inductive ExitKind
  | clean
  | failure
deriving DecidableEq, Repr

/-- Observable outcome of one run: termination kind, whether the local
`AUTHORS_FILE.write_text` ran, whether the remote content `PUT` ran, and the
diagnostics printed. -/
structure RunResult where
  exit : ExitKind
  wrote : Bool
  pushed : Bool
  messages : List String
deriving DecidableEq, Repr

/-- `update_authors_md` (script lines 78-229) with the I/O boundary made
explicit: `files` is the fetched changed-file list, `doc` the current
AUTHORS.md lines, `writeOk` whether the content `PUT` would return 200/201.
Every branch returns normally: the missing-heading case and the failed-push
case only print a message. -/
def update_authors_md (files : List (String × String)) (doc : List String)
    (display_name profile_url pr_number pr_url : String)
    (is_dry_run writeOk : Bool) : RunResult :=
  let category := classifyEvolved files
  match applyContribution doc category display_name profile_url pr_number pr_url with
  | .error _ =>
    ⟨.clean, false, false, ["Category " ++ category ++ " not found in AUTHORS.md."]⟩
  | .ok r =>
    if r.changed = false then
      ⟨.clean, false, false, ["No update needed"]⟩
    else if is_dry_run then
      ⟨.clean, true, false, ["Dry run mode: Changes not pushed."]⟩
    else if writeOk then
      ⟨.clean, true, true, ["Pushed changes to AUTHORS.md"]⟩
    else
      ⟨.clean, true, false, ["Failed to push changes"]⟩

/-- `get_merged_pr_info` (script lines 232-239): the PR number environment
variable, absent or empty, raises `EnvironmentError`. -/
def get_merged_pr_info (envPR : Option String) : Except String String :=
  match envPR with
  | none => .error "PR_NUMBER is not set in environment variables."
  | some pr =>
    if pr = "" then .error "PR_NUMBER is not set in environment variables."
    else .ok pr

/-- The `__main__` block (script lines 242-254): dry-run substitutes PR
number 9, otherwise a missing/empty `PR_NUMBER` raises (non-zero exit);
any run that reaches `update_authors_md` terminates with its result. -/
def runScript (dryRunFlag : Bool) (envPR : Option String)
    (files : List (String × String)) (doc : List String)
    (display_name profile_url pr_url : String) (writeOk : Bool) : RunResult :=
  if dryRunFlag then
    update_authors_md files doc display_name profile_url "9" pr_url true writeOk
  else
    match get_merged_pr_info envPR with
    | .error m => ⟨.failure, false, false, [m]⟩
    | .ok pr =>
      update_authors_md files doc display_name profile_url pr pr_url false writeOk

/-! String-level facts about the fixed markers and formats. -/

theorem pyStartsWith_iff {s p : String} : pyStartsWith s p = true ↔ p.data <+: s.data := by
  simp [pyStartsWith]

theorem pyStartsWith_false_iff {s p : String} :
    pyStartsWith s p = false ↔ ¬ p.data <+: s.data := by
  simp [pyStartsWith]

theorem pyIn_iff {sub s : String} : pyIn sub s = true ↔ sub.data <:+: s.data := by
  simp [pyIn]

theorem pyIn_false_iff {sub s : String} : pyIn sub s = false ↔ ¬ sub.data <:+: s.data := by
  simp [pyIn]

theorem not_prefix_of_head_ne {a b : Char} {l m : List Char} (h : a ≠ b) :
    ¬ (a :: l <+: b :: m) := by
  rintro ⟨t, ht⟩
  rw [List.cons_append] at ht
  exact h (List.head_eq_of_cons_eq ht)

theorem startsWith_gt (t : String) : pyStartsWith ("> " ++ t) ">" = true := by
  rw [pyStartsWith_iff]
  exact ⟨' ' :: t.data, rfl⟩

theorem gt_append_not_heading (t : String) : pyStartsWith ("> " ++ t) "### " = false := by
  rw [pyStartsWith_false_iff]
  exact not_prefix_of_head_ne (by decide)

theorem fmt_not_heading (dn pu : String) :
    pyStartsWith (contributor_format dn pu) "### " = false := by
  rw [pyStartsWith_false_iff]
  exact not_prefix_of_head_ne (by decide)

theorem empty_not_heading : pyStartsWith "" "### " = false := by decide

theorem empty_not_gt : pyStartsWith "" ">" = false := by decide

theorem label_starts_gt : pyStartsWith "> PRs: " ">" = true := by decide

theorem label_not_heading : pyStartsWith "> PRs: " "### " = false := by decide

theorem pyIn_self (s : String) : pyIn s s = true := by
  rw [pyIn_iff]

theorem pyIn_gt_append (t : String) : pyIn t ("> " ++ t) = true := by
  rw [pyIn_iff, String.data_append]
  exact (List.suffix_append _ _).isInfix

theorem hash_mem_tag (pn pu : String) : '#' ∈ (contributor_ref_tag_format pn pu).data :=
  List.mem_cons_of_mem _ (List.mem_cons_self _ _)

theorem tag_not_in_label (pn pu : String) :
    pyIn (contributor_ref_tag_format pn pu) "> PRs: " = false := by
  rw [pyIn_false_iff]
  intro h
  exact absurd (h.subset (hash_mem_tag pn pu)) (by decide)

/-! Facts about the line-scanning primitives. -/

theorem indexOfLine_eq_none {l : List String} {s : String} :
    indexOfLine l s = none ↔ s ∉ l := by
  induction l with
  | nil => simp [indexOfLine]
  | cons a l ih =>
    by_cases ha : a = s
    · simp [indexOfLine, ha]
    · simp only [indexOfLine, ha, if_false, Option.map_eq_none', ih, List.mem_cons]
      constructor
      · rintro hl (rfl | hm)
        · exact ha rfl
        · exact hl hm
      · exact fun hl hm => hl (Or.inr hm)

theorem indexOfLine_append {A : List String} {s : String} (h : s ∉ A) (B : List String) :
    indexOfLine (A ++ s :: B) s = some A.length := by
  induction A with
  | nil => simp [indexOfLine]
  | cons a A ih =>
    have ha : ¬ a = s := by rintro rfl; exact h (List.mem_cons_self _ _)
    rw [List.cons_append]
    simp [indexOfLine, ha, ih (fun hm => h (List.mem_cons_of_mem _ hm))]

theorem indexOfLine_eq_some {l : List String} {s : String} {n : Nat}
    (h : indexOfLine l s = some n) :
    ∃ A B, l = A ++ s :: B ∧ A.length = n ∧ s ∉ A := by
  induction l generalizing n with
  | nil => simp [indexOfLine] at h
  | cons a l ih =>
    by_cases ha : a = s
    · subst ha
      simp [indexOfLine] at h
      exact ⟨[], l, rfl, by simpa using h, by simp⟩
    · simp only [indexOfLine, ha, if_false, Option.map_eq_some'] at h
      obtain ⟨m, hm, hn⟩ := h
      obtain ⟨A, B, rfl, hA, hs⟩ := ih hm
      refine ⟨a :: A, B, rfl, by simp [hA, hn], ?_⟩
      intro hmem
      rcases List.mem_cons.mp hmem with rfl | hm'
      · exact ha rfl
      · exact hs hm'

theorem findContrib_append {fmt : String} {B : List String}
    (hB : ∀ b ∈ B, pyStartsWith b "### " = false ∧ pyIn fmt b = false)
    (rest : List String) :
    findContrib fmt (B ++ rest) = (findContrib fmt rest).map (· + B.length) := by
  induction B with
  | nil => simp
  | cons b B ih =>
    obtain ⟨h1, h2⟩ := hB b (List.mem_cons_self _ _)
    rw [List.cons_append]
    simp only [findContrib, h1, h2, if_false,
      ih (fun x hx => hB x (List.mem_cons_of_mem _ hx))]
    cases findContrib fmt rest
    · simp
    · simp
      omega

theorem findContrib_found {fmt : String} {B : List String} {e : String}
    (hB : ∀ b ∈ B, pyStartsWith b "### " = false ∧ pyIn fmt b = false)
    (he1 : pyStartsWith e "### " = false) (he2 : pyIn fmt e = true)
    (rest : List String) :
    findContrib fmt (B ++ e :: rest) = some B.length := by
  rw [findContrib_append hB]
  simp [findContrib, he1, he2]

theorem findContrib_none_of_stop {fmt : String} {B C : List String}
    (hB : ∀ b ∈ B, pyStartsWith b "### " = false ∧ pyIn fmt b = false)
    (hC : C = [] ∨ ∃ c cs, C = c :: cs ∧ pyStartsWith c "### " = true) :
    findContrib fmt (B ++ C) = none := by
  rw [findContrib_append hB]
  rcases hC with rfl | ⟨c, cs, rfl, hc⟩
  · simp [findContrib]
  · simp [findContrib, hc]

theorem findContrib_eq_some {fmt : String} {l : List String} {n : Nat}
    (h : findContrib fmt l = some n) :
    ∃ A e B, l = A ++ e :: B ∧ A.length = n ∧
      (∀ a ∈ A, pyStartsWith a "### " = false ∧ pyIn fmt a = false) ∧
      pyStartsWith e "### " = false ∧ pyIn fmt e = true := by
  induction l generalizing n with
  | nil => simp [findContrib] at h
  | cons a l ih =>
    cases h1 : pyStartsWith a "### " with
    | true => simp [findContrib, h1] at h
    | false =>
      cases h2 : pyIn fmt a with
      | true =>
        simp [findContrib, h1, h2] at h
        subst h
        exact ⟨[], a, l, rfl, rfl, by simp, h1, h2⟩
      | false =>
        simp [findContrib, h1, h2, Option.map_eq_some'] at h
        obtain ⟨m, hm, hn⟩ := h
        obtain ⟨A, e, B, rfl, hA, hclean, he1, he2⟩ := ih hm
        refine ⟨a :: A, e, B, rfl, by simp [hA, hn], ?_, he1, he2⟩
        intro x hx
        rcases List.mem_cons.mp hx with rfl | hx'
        · exact ⟨h1, h2⟩
        · exact hclean x hx'

theorem findSectionEnd_append {B : List String}
    (hB : ∀ b ∈ B, pyStartsWith b "### " = false) (rest : List String) :
    findSectionEnd (B ++ rest) = B.length + findSectionEnd rest := by
  induction B with
  | nil => simp
  | cons b B ih =>
    have h1 := hB b (List.mem_cons_self _ _)
    rw [List.cons_append]
    simp [findSectionEnd, h1, ih (fun x hx => hB x (List.mem_cons_of_mem _ hx))]
    omega

theorem findSectionEnd_stop {B C : List String}
    (hB : ∀ b ∈ B, pyStartsWith b "### " = false)
    (hC : C = [] ∨ ∃ c cs, C = c :: cs ∧ pyStartsWith c "### " = true) :
    findSectionEnd (B ++ C) = B.length := by
  rw [findSectionEnd_append hB]
  rcases hC with rfl | ⟨c, cs, rfl, hc⟩
  · simp [findSectionEnd]
  · simp [findSectionEnd, hc]

theorem findContrib_eq_none {fmt : String} {l : List String}
    (h : findContrib fmt l = none) :
    ∃ B C, l = B ++ C ∧ findSectionEnd l = B.length ∧
      (∀ b ∈ B, pyStartsWith b "### " = false ∧ pyIn fmt b = false) ∧
      (C = [] ∨ ∃ c cs, C = c :: cs ∧ pyStartsWith c "### " = true) := by
  induction l with
  | nil => exact ⟨[], [], rfl, rfl, by simp, Or.inl rfl⟩
  | cons a l ih =>
    cases h1 : pyStartsWith a "### " with
    | true =>
      refine ⟨[], a :: l, rfl, ?_, by simp, Or.inr ⟨a, l, rfl, h1⟩⟩
      simp [findSectionEnd, h1]
    | false =>
      cases h2 : pyIn fmt a with
      | true => simp [findContrib, h1, h2] at h
      | false =>
        simp [findContrib, h1, h2, Option.map_eq_none'] at h
        obtain ⟨B, C, rfl, hlen, hB, hC⟩ := ih h
        refine ⟨a :: B, C, rfl, by simp [findSectionEnd, h1, hlen], ?_, hC⟩
        intro x hx
        rcases List.mem_cons.mp hx with rfl | hx'
        · exact ⟨h1, h2⟩
        · exact hB x hx'

theorem scanRefs_append {tag : String} {R : List String}
    (hR : ∀ r ∈ R, pyStartsWith r ">" = true ∧ pyIn tag r = false) (rest : List String) :
    scanRefs tag (R ++ rest) = ((scanRefs tag rest).1 + R.length, (scanRefs tag rest).2) := by
  induction R with
  | nil => simp
  | cons r R ih =>
    obtain ⟨h1, h2⟩ := hR r (List.mem_cons_self _ _)
    rw [List.cons_append]
    simp [scanRefs, h1, h2, ih (fun x hx => hR x (List.mem_cons_of_mem _ hx))]
    omega

theorem scanRefs_hit {tag : String} {R : List String} {x : String}
    (hR : ∀ r ∈ R, pyStartsWith r ">" = true ∧ pyIn tag r = false)
    (hx1 : pyStartsWith x ">" = true) (hx2 : pyIn tag x = true) (rest : List String) :
    scanRefs tag (R ++ x :: rest) = (R.length, true) := by
  rw [scanRefs_append hR]
  simp [scanRefs, hx1, hx2]

theorem scanRefs_stop {tag : String} {R C : List String}
    (hR : ∀ r ∈ R, pyStartsWith r ">" = true ∧ pyIn tag r = false)
    (hC : C = [] ∨ ∃ c cs, C = c :: cs ∧ pyStartsWith c ">" = false) :
    scanRefs tag (R ++ C) = (R.length, false) := by
  rw [scanRefs_append hR]
  rcases hC with rfl | ⟨c, cs, rfl, hc⟩
  · simp [scanRefs]
  · simp [scanRefs, hc]

theorem scanRefs_eq_false {tag : String} {l : List String} {n : Nat}
    (h : scanRefs tag l = (n, false)) :
    ∃ R C, l = R ++ C ∧ R.length = n ∧
      (∀ r ∈ R, pyStartsWith r ">" = true ∧ pyIn tag r = false) ∧
      (C = [] ∨ ∃ c cs, C = c :: cs ∧ pyStartsWith c ">" = false) := by
  induction l generalizing n with
  | nil =>
    simp [scanRefs] at h
    subst h
    exact ⟨[], [], rfl, rfl, by simp, Or.inl rfl⟩
  | cons a l ih =>
    cases h1 : pyStartsWith a ">" with
    | false =>
      simp [scanRefs, h1] at h
      subst h
      exact ⟨[], a :: l, rfl, rfl, by simp, Or.inr ⟨a, l, rfl, h1⟩⟩
    | true =>
      cases h2 : pyIn tag a with
      | true => simp [scanRefs, h1, h2] at h
      | false =>
        simp [scanRefs, h1, h2, Prod.ext_iff] at h
        obtain ⟨hn, hb⟩ := h
        have hsc : scanRefs tag l = ((scanRefs tag l).1, false) := by
          rw [← hb]
        obtain ⟨R, C, rfl, hlen, hR, hC⟩ := ih hsc
        refine ⟨a :: R, C, rfl, by simp only [List.length_cons]; omega, ?_, hC⟩
        intro x hx
        rcases List.mem_cons.mp hx with rfl | hx'
        · exact ⟨h1, h2⟩
        · exact hR x hx'

theorem insertAt_append (P Q xs : List String) :
    insertAt (P ++ Q) P.length xs = P ++ xs ++ Q := by
  rw [insertAt, List.take_left, List.drop_left]

theorem sublist_insertAt (l : List String) (n : Nat) (xs : List String) :
    l.Sublist (insertAt l n xs) := by
  conv_lhs => rw [← List.take_append_drop n l]
  rw [insertAt, List.append_assoc]
  exact (List.sublist_append_right xs (l.drop n)).append_left (l.take n)

theorem drop_after (A : List String) (s : String) (B : List String) :
    (A ++ s :: B).drop (A.length + 1) = B := by
  rw [show A ++ s :: B = (A ++ [s]) ++ B by simp,
      show A.length + 1 = (A ++ [s]).length by simp,
      List.drop_left]

theorem drop_after2 (A : List String) (s : String) (B : List String) (e : String)
    (D : List String) :
    (A ++ s :: (B ++ e :: D)).drop (A.length + 1 + B.length + 1) = D := by
  rw [show A ++ s :: (B ++ e :: D) = (A ++ s :: (B ++ [e])) ++ D by simp,
      show A.length + 1 + B.length + 1 = (A ++ s :: (B ++ [e])).length by
        simp only [List.length_append, List.length_cons, List.length_nil]
        omega,
      List.drop_left]

/-- Splicing at the junction of an append, stated with a flexible index. -/
theorem insertAt_middle (P Q xs : List String) (n : Nat) (hn : n = P.length) :
    insertAt (P ++ Q) n xs = P ++ (xs ++ Q) := by
  subst hn
  rw [insertAt_append, List.append_assoc]

/-! Branch-level computation lemmas for `applyContribution` on a structurally
decomposed document. -/

/-- No-op branch: the contributor is found and the reference scan hits the PR
tag, so the document comes back unchanged with `changed = false`. -/
theorem apply_noop {A B D : List String} {cat dn pu pn prurl e : String}
    (hA : headingFor cat ∉ A)
    (hB : ∀ b ∈ B, pyStartsWith b "### " = false ∧ pyIn (contributor_format dn pu) b = false)
    (he1 : pyStartsWith e "### " = false)
    (he2 : pyIn (contributor_format dn pu) e = true)
    (hsc : (scanRefs (contributor_ref_tag_format pn prurl) D).2 = true) :
    applyContribution (A ++ headingFor cat :: (B ++ e :: D)) cat dn pu pn prurl =
      .ok ⟨A ++ headingFor cat :: (B ++ e :: D), false⟩ := by
  have hIdx := indexOfLine_append hA (B ++ e :: D)
  have hd1 := drop_after A (headingFor cat) (B ++ e :: D)
  have hfc := findContrib_found hB he1 he2 D
  have hd2 := drop_after2 A (headingFor cat) B e D
  simp only [applyContribution, hIdx, hd1, hfc, hd2, hsc, if_true]

/-- Existing-contributor branch: the contributor is found, the scan runs off
the end of its blockquote run without hitting the tag, and one reference line
is spliced in right after the run. -/
theorem apply_existing {A B R C : List String} {cat dn pu pn prurl e : String}
    (hA : headingFor cat ∉ A)
    (hB : ∀ b ∈ B, pyStartsWith b "### " = false ∧ pyIn (contributor_format dn pu) b = false)
    (he1 : pyStartsWith e "### " = false)
    (he2 : pyIn (contributor_format dn pu) e = true)
    (hR : ∀ r ∈ R, pyStartsWith r ">" = true ∧
      pyIn (contributor_ref_tag_format pn prurl) r = false)
    (hC : C = [] ∨ ∃ x xs, C = x :: xs ∧ pyStartsWith x ">" = false) :
    applyContribution (A ++ headingFor cat :: (B ++ e :: (R ++ C))) cat dn pu pn prurl =
      .ok ⟨A ++ headingFor cat ::
        (B ++ e :: (R ++ ("> " ++ contributor_ref_tag_format pn prurl) :: C)), true⟩ := by
  have hIdx := indexOfLine_append hA (B ++ e :: (R ++ C))
  have hd1 := drop_after A (headingFor cat) (B ++ e :: (R ++ C))
  have hfc := findContrib_found hB he1 he2 (R ++ C)
  have hd2 := drop_after2 A (headingFor cat) B e (R ++ C)
  have hsc := scanRefs_stop hR hC
  simp only [applyContribution, hIdx, hd1, hfc, hd2, hsc]
  rw [if_neg (by simp)]
  rw [show A ++ headingFor cat :: (B ++ e :: (R ++ C)) =
        (A ++ headingFor cat :: (B ++ e :: R)) ++ C by simp,
      insertAt_middle _ _ _ _ (by
        simp only [List.length_append, List.length_cons]
        omega)]
  simp

/-- New-contributor branch: the contributor is absent from the section, and a
four-line block is spliced in at the end of the section, just before the next
heading (or at the end of the document). -/
theorem apply_new {A B C : List String} {cat dn pu pn prurl : String}
    (hA : headingFor cat ∉ A)
    (hB : ∀ b ∈ B, pyStartsWith b "### " = false ∧ pyIn (contributor_format dn pu) b = false)
    (hC : C = [] ∨ ∃ x xs, C = x :: xs ∧ pyStartsWith x "### " = true) :
    applyContribution (A ++ headingFor cat :: (B ++ C)) cat dn pu pn prurl =
      .ok ⟨A ++ headingFor cat :: (B ++ contributor_format dn pu :: "> PRs: " ::
        ("> " ++ contributor_ref_tag_format pn prurl) :: "" :: C), true⟩ := by
  have hIdx := indexOfLine_append hA (B ++ C)
  have hd1 := drop_after A (headingFor cat) (B ++ C)
  have hfc := findContrib_none_of_stop hB hC
  have hse := findSectionEnd_stop (fun b hb => (hB b hb).1) hC
  simp only [applyContribution, hIdx, hd1, hfc, hse]
  rw [show A ++ headingFor cat :: (B ++ C) = (A ++ headingFor cat :: B) ++ C by simp,
      insertAt_middle _ _ _ _ (by
        simp only [List.length_append, List.length_cons]
        omega)]
  simp

/-- Inversion of a successful run of `applyContribution`: the input document
decomposes into heading prefix, section and remainder, and the output is the
corresponding no-op, reference-append or block-insertion result. -/
theorem applyContribution_ok_inv {doc : List String} {cat dn pu pn prurl : String}
    {d1 : List String} {c : Bool}
    (h : applyContribution doc cat dn pu pn prurl = .ok ⟨d1, c⟩) :
    (d1 = doc ∧ c = false) ∨
    (c = true ∧ ∃ A B e R C, doc = A ++ headingFor cat :: (B ++ e :: (R ++ C)) ∧
      headingFor cat ∉ A ∧
      (∀ b ∈ B, pyStartsWith b "### " = false ∧
        pyIn (contributor_format dn pu) b = false) ∧
      pyStartsWith e "### " = false ∧ pyIn (contributor_format dn pu) e = true ∧
      (∀ r ∈ R, pyStartsWith r ">" = true ∧
        pyIn (contributor_ref_tag_format pn prurl) r = false) ∧
      (C = [] ∨ ∃ x xs, C = x :: xs ∧ pyStartsWith x ">" = false) ∧
      d1 = A ++ headingFor cat ::
        (B ++ e :: (R ++ ("> " ++ contributor_ref_tag_format pn prurl) :: C))) ∨
    (c = true ∧ ∃ A B C, doc = A ++ headingFor cat :: (B ++ C) ∧
      headingFor cat ∉ A ∧
      (∀ b ∈ B, pyStartsWith b "### " = false ∧
        pyIn (contributor_format dn pu) b = false) ∧
      (C = [] ∨ ∃ x xs, C = x :: xs ∧ pyStartsWith x "### " = true) ∧
      d1 = A ++ headingFor cat :: (B ++ contributor_format dn pu :: "> PRs: " ::
        ("> " ++ contributor_ref_tag_format pn prurl) :: "" :: C)) := by
  cases hIdx : indexOfLine doc (headingFor cat) with
  | none => simp [applyContribution, hIdx] at h
  | some hh =>
    obtain ⟨A, tail, rfl, hlen, hA⟩ := indexOfLine_eq_some hIdx
    subst hlen
    cases hfc : findContrib (contributor_format dn pu) tail with
    | none =>
      obtain ⟨B, C, rfl, hse, hB, hC⟩ := findContrib_eq_none hfc
      rw [apply_new hA hB hC] at h
      simp only [Except.ok.injEq, UpdateResult.mk.injEq] at h
      exact Or.inr (Or.inr ⟨h.2.symm, A, B, C, rfl, hA, hB, hC, h.1.symm⟩)
    | some k =>
      obtain ⟨B, e, D, rfl, hklen, hB, he1, he2⟩ := findContrib_eq_some hfc
      cases hscB : (scanRefs (contributor_ref_tag_format pn prurl) D).2 with
      | true =>
        rw [apply_noop hA hB he1 he2 hscB] at h
        simp only [Except.ok.injEq, UpdateResult.mk.injEq] at h
        exact Or.inl ⟨h.1.symm, h.2.symm⟩
      | false =>
        have hsc : scanRefs (contributor_ref_tag_format pn prurl) D =
            ((scanRefs (contributor_ref_tag_format pn prurl) D).1, false) := by
          rw [← hscB]
        obtain ⟨R, C, rfl, hRlen, hR, hC⟩ := scanRefs_eq_false hsc
        rw [apply_existing hA hB he1 he2 hR hC] at h
        simp only [Except.ok.injEq, UpdateResult.mk.injEq] at h
        exact Or.inr (Or.inl ⟨h.2.symm, A, B, e, R, C, rfl, hA, hB, he1, he2, hR, hC,
          h.1.symm⟩)

/-! Claim theorems. -/

/-- C1: Idempotence of the document updater — for every attribution document,
category, contributor identity and PR reference, a second application of the
update with identical inputs is a no-op: it returns `changed = false`, leaves
the document byte-identical to the result of the first application, and does
not write the file. -/
theorem c1_update_idempotent (doc : List String) (cat dn pu pn prurl : String)
    (d1 : List String) (c : Bool)
    (h : applyContribution doc cat dn pu pn prurl = .ok ⟨d1, c⟩) :
    applyContribution d1 cat dn pu pn prurl = .ok ⟨d1, false⟩ ∧
    ∀ files dr w, classifyEvolved files = cat →
      (update_authors_md files d1 dn pu pn prurl dr w).wrote = false := by
  have h2 : applyContribution d1 cat dn pu pn prurl = .ok ⟨d1, false⟩ := by
    rcases applyContribution_ok_inv h with ⟨rfl, rfl⟩ |
      ⟨rfl, A, B, e, R, C, rfl, hA, hB, he1, he2, hR, hC, rfl⟩ |
      ⟨rfl, A, B, C, rfl, hA, hB, hC, rfl⟩
    · exact h
    · exact apply_noop hA hB he1 he2 (by
        rw [scanRefs_hit hR (startsWith_gt _) (pyIn_gt_append _) C])
    · exact apply_noop hA hB (fmt_not_heading dn pu) (pyIn_self _) (by
        simp [scanRefs, label_starts_gt, tag_not_in_label, startsWith_gt,
          pyIn_gt_append])
  refine ⟨h2, fun files dr w hcat => ?_⟩
  subst hcat
  simp [update_authors_md, h2]

/-- Witness for C1 at a concrete document: one application inserts Ada's
block, the second is a no-op. -/
theorem c1_update_idempotent_witness :
    applyContribution
      ["### Engineering", "- [Ada](au)", "> PRs: ", "> [#3](pu)", "", "### Art"]
      "Engineering" "Ada" "au" "3" "pu" =
      .ok ⟨["### Engineering", "- [Ada](au)", "> PRs: ", "> [#3](pu)", "", "### Art"],
        false⟩ ∧
    ∀ files dr w, classifyEvolved files = "Engineering" →
      (update_authors_md files
        ["### Engineering", "- [Ada](au)", "> PRs: ", "> [#3](pu)", "", "### Art"]
        "Ada" "au" "3" "pu" dr w).wrote = false :=
  c1_update_idempotent ["### Engineering", "### Art"] "Engineering" "Ada" "au" "3" "pu"
    ["### Engineering", "- [Ada](au)", "> PRs: ", "> [#3](pu)", "", "### Art"] true
    (by rfl)

/-- C6: Missing-heading atomicity — when no line of the document equals the
heading of the chosen category, the update fails with `categoryNotFound`, and
the run performs neither the local file write nor the remote push. -/
theorem c6_missing_heading (doc : List String) (cat dn pu pn prurl : String)
    (h : headingFor cat ∉ doc) :
    applyContribution doc cat dn pu pn prurl = .error .categoryNotFound ∧
    ∀ files dr w, classifyEvolved files = cat →
      (update_authors_md files doc dn pu pn prurl dr w).wrote = false ∧
      (update_authors_md files doc dn pu pn prurl dr w).pushed = false := by
  have he : indexOfLine doc (headingFor cat) = none := indexOfLine_eq_none.mpr h
  have happ : applyContribution doc cat dn pu pn prurl = .error .categoryNotFound := by
    simp [applyContribution, he]
  refine ⟨happ, fun files dr w hcat => ?_⟩
  subst hcat
  simp [update_authors_md, happ]

/-- Witness for C6: a document with only the Engineering heading rejects a
Design update. -/
theorem c6_missing_heading_witness :
    headingFor "Design" ∉ ["### Engineering"] ∧
    applyContribution ["### Engineering"] "Design" "Ada" "au" "7" "u7" =
      .error .categoryNotFound :=
  ⟨by decide, (c6_missing_heading ["### Engineering"] "Design" "Ada" "au" "7" "u7"
    (by decide)).1⟩

/-- C7: Insertion preserves existing order — every successful application
returns a document in which all input lines occur, in their original relative
order (the operation only inserts lines, never deletes or reorders them). -/
theorem c7_insertion_preserves_order (doc : List String)
    (cat dn pu pn prurl : String) (r : UpdateResult)
    (h : applyContribution doc cat dn pu pn prurl = .ok r) :
    doc.Sublist r.content := by
  obtain ⟨d1, c⟩ := r
  rcases applyContribution_ok_inv h with ⟨rfl, rfl⟩ |
    ⟨rfl, A, B, e, R, C, rfl, -, -, -, -, -, -, rfl⟩ |
    ⟨rfl, A, B, C, rfl, -, -, -, rfl⟩
  · exact List.Sublist.refl _
  · refine List.Sublist.append_left ?_ A
    refine List.Sublist.cons₂ _ ?_
    refine List.Sublist.append_left ?_ B
    refine List.Sublist.cons₂ _ ?_
    refine List.Sublist.append_left ?_ R
    exact List.sublist_cons_self _ _
  · refine List.Sublist.append_left ?_ A
    refine List.Sublist.cons₂ _ ?_
    refine List.Sublist.append_left ?_ B
    refine List.Sublist.trans (List.sublist_cons_self "" C) ?_
    refine List.Sublist.trans
      (List.sublist_cons_self ("> " ++ contributor_ref_tag_format pn prurl) _) ?_
    refine List.Sublist.trans (List.sublist_cons_self "> PRs: " _) ?_
    exact List.sublist_cons_self _ _

/-- Witness for C7 at a concrete document. -/
theorem c7_insertion_preserves_order_witness :
    List.Sublist ["### Engineering", "### Art"]
      ["### Engineering", "- [Ada](au)", "> PRs: ", "> [#3](pu)", "", "### Art"] :=
  c7_insertion_preserves_order ["### Engineering", "### Art"] "Engineering"
    "Ada" "au" "3" "pu"
    ⟨["### Engineering", "- [Ada](au)", "> PRs: ", "> [#3](pu)", "", "### Art"], true⟩
    (by rfl)

/-- C9: Heading match is exact whole-line equality — the update takes the
`categoryNotFound` path precisely when no line of the document is the exact
string made of the heading marker followed by the category name; a line that
merely contains or extends that text is not recognized. -/
theorem c9_heading_exact_match (doc : List String) (cat dn pu pn prurl : String) :
    applyContribution doc cat dn pu pn prurl = .error .categoryNotFound ↔
      ("### " ++ cat) ∉ doc := by
  constructor
  · intro h
    cases hIdx : indexOfLine doc (headingFor cat) with
    | none => exact indexOfLine_eq_none.mp hIdx
    | some hh =>
      exfalso
      cases hfc : findContrib (contributor_format dn pu) (doc.drop (hh + 1)) with
      | none => simp [applyContribution, hIdx, hfc] at h
      | some k =>
        cases hb : (scanRefs (contributor_ref_tag_format pn prurl)
            (doc.drop (hh + 1 + k + 1))).2 with
        | true => simp [applyContribution, hIdx, hfc, hb] at h
        | false => simp [applyContribution, hIdx, hfc, hb] at h
  · intro h
    have he : indexOfLine doc (headingFor cat) = none := indexOfLine_eq_none.mpr h
    simp [applyContribution, he]

/-- C2 counterexample: on a document whose Engineering section already holds
Bob's entry, a new contributor is NOT inserted as the first entry directly
under the heading — the code splices the block at the end of the section,
after Bob. -/
theorem c2_counterexample :
    applyContribution ["### Engineering", "- [Bob](bu)", "### Art"]
      "Engineering" "Ada" "au" "3" "pu" =
      .ok ⟨["### Engineering", "- [Bob](bu)", "- [Ada](au)", "> PRs: ",
        "> [#3](pu)", "", "### Art"], true⟩ ∧
    applyContribution ["### Engineering", "- [Bob](bu)", "### Art"]
      "Engineering" "Ada" "au" "3" "pu" ≠
      .ok ⟨["### Engineering", "- [Ada](au)", "> PRs: ", "> [#3](pu)", "",
        "- [Bob](bu)", "### Art"], true⟩ := by
  constructor
  · rfl
  · decide

/-- C2 (amended): for every document with the category heading and no entry
line for the contributor in that category's section, the update inserts
exactly one contributor block — entry line, label line, one PR reference
line, trailing blank line — positioned as the LAST entry of the section,
immediately before the next heading or at the end of the document. -/
theorem c2_new_contributor_insertion (A B C : List String)
    (cat dn pu pn prurl : String)
    (hA : headingFor cat ∉ A)
    (hB : ∀ b ∈ B, pyStartsWith b "### " = false ∧
      pyIn (contributor_format dn pu) b = false)
    (hC : C = [] ∨ ∃ x xs, C = x :: xs ∧ pyStartsWith x "### " = true) :
    applyContribution (A ++ headingFor cat :: (B ++ C)) cat dn pu pn prurl =
      .ok ⟨A ++ headingFor cat :: (B ++ contributor_format dn pu :: "> PRs: " ::
        ("> " ++ contributor_ref_tag_format pn prurl) :: "" :: C), true⟩ :=
  apply_new hA hB hC

/-- Witness for the amended C2 at a concrete document: Ada's block lands at
the end of the Engineering section, after Bob's entry. -/
theorem c2_new_contributor_insertion_witness :
    applyContribution ["### Engineering", "- [Bob](bu)", "### Art"]
      "Engineering" "Ada" "au" "3" "pu" =
      .ok ⟨["### Engineering", "- [Bob](bu)", "- [Ada](au)", "> PRs: ",
        "> [#3](pu)", "", "### Art"], true⟩ :=
  c2_new_contributor_insertion [] ["- [Bob](bu)"] ["### Art"]
    "Engineering" "Ada" "au" "3" "pu" (by decide) (by decide)
    (Or.inr ⟨"### Art", [], rfl, by decide⟩)

/-- C3 counterexample: a non-empty changed-file list in which no lowercased
path ends with any configured extension is classified as "Engineering", not
as "Community & Support" — the explicit fallback only covers the empty list,
since a non-empty list populates the score dict with all-zero counts and
`max` returns its first key. -/
theorem c3_counterexample :
    (∀ e ∈ ENGINEERING_EXTENSIONS ++ ART_EXTENSIONS ++ DESIGN_EXTENSIONS ++
        COMMUNITY_EXTENSIONS, pyEndsWith (pyLower "foo.exe") e = false) ∧
    classifyEvolved [("foo.exe", "modified")] ≠ "Community & Support" := by
  constructor
  · decide
  · decide

/-- C3 (amended): the evolved classifier returns "Community & Support" for
the empty file list; for a non-empty list in which no file's lowercased path
ends with any configured extension it returns "Engineering" (the first key of
the all-zero score dict). -/
theorem c3_fallback (files : List (String × String)) (hne : files ≠ [])
    (hmatch : ∀ f ∈ files, ∀ e ∈ ENGINEERING_EXTENSIONS ++ ART_EXTENSIONS ++
      DESIGN_EXTENSIONS ++ COMMUNITY_EXTENSIONS,
      pyEndsWith (pyLower f.1) e = false) :
    classifyEvolved [] = "Community & Support" ∧
    classifyEvolved files = "Engineering" := by
  refine ⟨rfl, ?_⟩
  have key : ∀ exts crit : List String,
      (∀ e ∈ exts, e ∈ ENGINEERING_EXTENSIONS ++ ART_EXTENSIONS ++
        DESIGN_EXTENSIONS ++ COMMUNITY_EXTENSIONS) →
      evolvedScore exts crit files = 0 := by
    intro exts crit hsub
    rw [evolvedScore, List.countP_eq_zero]
    intro f hf
    simp only [fileMatches, Bool.and_eq_true, List.any_eq_true, not_and]
    rintro ⟨e, he, hee⟩
    simp [hmatch f hf e (hsub e he)] at hee
  cases files with
  | nil => exact absurd rfl hne
  | cons f fs =>
    simp only [classifyEvolved]
    rw [key ENGINEERING_EXTENSIONS ENGINEERING_CRITRIA (by intro e he; simp [he]),
        key ART_EXTENSIONS ART_CRITRIA (by intro e he; simp [he]),
        key DESIGN_EXTENSIONS DESIGN_CRITRIA (by intro e he; simp [he]),
        key COMMUNITY_EXTENSIONS COMMUNITY_CRITRIA (by intro e he; simp [he])]
    rfl

/-- Witness for the amended C3 at a concrete non-matching file list. -/
theorem c3_fallback_witness :
    classifyEvolved [] = "Community & Support" ∧
    classifyEvolved [("foo.exe", "modified")] = "Engineering" :=
  c3_fallback [("foo.exe", "modified")] (by decide) (by decide)

/-- C4: Classifier tie-break — both classifier variants return, among the
categories attaining the maximal count, the one encountered first in the
fixed ordering Engineering, Art, Design, Community & Support: a category is
selected exactly when its count is maximal and every earlier category's count
is strictly smaller. -/
theorem c4_tie_break (files : List String) (files2 : List (String × String))
    (hne : files2 ≠ []) :
    ((artScore files ≤ engScore files → designScore files ≤ engScore files →
        communityScore files ≤ engScore files →
        detect_category files = "Engineering") ∧
      (engScore files < artScore files → designScore files ≤ artScore files →
        communityScore files ≤ artScore files →
        detect_category files = "Art") ∧
      (engScore files < designScore files → artScore files < designScore files →
        communityScore files ≤ designScore files →
        detect_category files = "Design") ∧
      (engScore files < communityScore files →
        artScore files < communityScore files →
        designScore files < communityScore files →
        detect_category files = "Community & Support")) ∧
    ((evolvedScore ART_EXTENSIONS ART_CRITRIA files2 ≤
          evolvedScore ENGINEERING_EXTENSIONS ENGINEERING_CRITRIA files2 →
        evolvedScore DESIGN_EXTENSIONS DESIGN_CRITRIA files2 ≤
          evolvedScore ENGINEERING_EXTENSIONS ENGINEERING_CRITRIA files2 →
        evolvedScore COMMUNITY_EXTENSIONS COMMUNITY_CRITRIA files2 ≤
          evolvedScore ENGINEERING_EXTENSIONS ENGINEERING_CRITRIA files2 →
        classifyEvolved files2 = "Engineering") ∧
      (evolvedScore ENGINEERING_EXTENSIONS ENGINEERING_CRITRIA files2 <
          evolvedScore ART_EXTENSIONS ART_CRITRIA files2 →
        evolvedScore DESIGN_EXTENSIONS DESIGN_CRITRIA files2 ≤
          evolvedScore ART_EXTENSIONS ART_CRITRIA files2 →
        evolvedScore COMMUNITY_EXTENSIONS COMMUNITY_CRITRIA files2 ≤
          evolvedScore ART_EXTENSIONS ART_CRITRIA files2 →
        classifyEvolved files2 = "Art") ∧
      (evolvedScore ENGINEERING_EXTENSIONS ENGINEERING_CRITRIA files2 <
          evolvedScore DESIGN_EXTENSIONS DESIGN_CRITRIA files2 →
        evolvedScore ART_EXTENSIONS ART_CRITRIA files2 <
          evolvedScore DESIGN_EXTENSIONS DESIGN_CRITRIA files2 →
        evolvedScore COMMUNITY_EXTENSIONS COMMUNITY_CRITRIA files2 ≤
          evolvedScore DESIGN_EXTENSIONS DESIGN_CRITRIA files2 →
        classifyEvolved files2 = "Design") ∧
      (evolvedScore ENGINEERING_EXTENSIONS ENGINEERING_CRITRIA files2 <
          evolvedScore COMMUNITY_EXTENSIONS COMMUNITY_CRITRIA files2 →
        evolvedScore ART_EXTENSIONS ART_CRITRIA files2 <
          evolvedScore COMMUNITY_EXTENSIONS COMMUNITY_CRITRIA files2 →
        evolvedScore DESIGN_EXTENSIONS DESIGN_CRITRIA files2 <
          evolvedScore COMMUNITY_EXTENSIONS COMMUNITY_CRITRIA files2 →
        classifyEvolved files2 = "Community & Support")) := by
  obtain ⟨f, fs, rfl⟩ : ∃ f fs, files2 = f :: fs := by
    cases files2 with
    | nil => exact absurd rfl hne
    | cons f fs => exact ⟨f, fs, rfl⟩
  constructor
  · refine ⟨fun h1 h2 h3 => ?_, fun h1 h2 h3 => ?_, fun h1 h2 h3 => ?_,
      fun h1 h2 h3 => ?_⟩ <;>
    · dsimp only [detect_category, firstMax4, maxStep]
      split_ifs <;> first | rfl | omega
  · refine ⟨fun h1 h2 h3 => ?_, fun h1 h2 h3 => ?_, fun h1 h2 h3 => ?_,
      fun h1 h2 h3 => ?_⟩ <;>
    · dsimp only [classifyEvolved, firstMax4, maxStep]
      split_ifs <;> first | rfl | omega

/-- Witness for C4: a tie between Engineering and Art (one `.gd` and one
`.png` file) resolves to Engineering in both variants. -/
theorem c4_tie_break_witness :
    detect_category ["a.gd", "b.png"] = "Engineering" ∧
    classifyEvolved [("a.gd", "modified"), ("b.png", "added")] = "Engineering" :=
  ⟨(c4_tie_break ["a.gd", "b.png"] [("a.gd", "modified"), ("b.png", "added")]
      (by decide)).1.1 (by decide) (by decide) (by decide),
    (c4_tie_break ["a.gd", "b.png"] [("a.gd", "modified"), ("b.png", "added")]
      (by decide)).2.1 (by decide) (by decide) (by decide)⟩

/-- C5: Existing-contributor new-PR append — when the contributor's entry
line is present in the category's section, followed by a contiguous run of
blockquote reference lines none of which contains the new PR's tag, the
update keeps every existing line in place and splices exactly one new
reference line in immediately after the last line of that run. -/
theorem c5_existing_contributor_append (A B R C : List String)
    (cat dn pu pn prurl e : String)
    (hA : headingFor cat ∉ A)
    (hB : ∀ b ∈ B, pyStartsWith b "### " = false ∧
      pyIn (contributor_format dn pu) b = false)
    (he1 : pyStartsWith e "### " = false)
    (he2 : pyIn (contributor_format dn pu) e = true)
    (hR : ∀ r ∈ R, pyStartsWith r ">" = true ∧
      pyIn (contributor_ref_tag_format pn prurl) r = false)
    (hC : C = [] ∨ ∃ x xs, C = x :: xs ∧ pyStartsWith x ">" = false) :
    applyContribution (A ++ headingFor cat :: (B ++ e :: (R ++ C))) cat dn pu pn prurl =
      .ok ⟨A ++ headingFor cat ::
        (B ++ e :: (R ++ ("> " ++ contributor_ref_tag_format pn prurl) :: C)), true⟩ :=
  apply_existing hA hB he1 he2 hR hC

/-- Witness for C5: Ada's references 5 become 5 then 7, with 5 left in place
and 7 appended after it. -/
theorem c5_existing_contributor_append_witness :
    applyContribution
      ["### Engineering", "- [Ada](au)", "> PRs: ", "> [#5](u5)", "", "### Art"]
      "Engineering" "Ada" "au" "7" "u7" =
      .ok ⟨["### Engineering", "- [Ada](au)", "> PRs: ", "> [#5](u5)",
        "> [#7](u7)", "", "### Art"], true⟩ :=
  c5_existing_contributor_append [] [] ["> PRs: ", "> [#5](u5)"] ["", "### Art"]
    "Engineering" "Ada" "au" "7" "u7" "- [Ada](au)" (by decide) (by decide)
    (by decide) (by decide) (by decide) (Or.inr ⟨"", ["### Art"], rfl, by decide⟩)

/-- C8 counterexample: a run with a missing category heading, and a run whose
content push fails, both return normally (process exit 0) instead of
terminating with a failure signal; only the missing PR identifier raises. -/
theorem c8_counterexample :
    (runScript false (some "3") [("a.gd", "modified")] ["### Art"]
      "Ada" "au" "pu" true).exit ≠ ExitKind.failure ∧
    (runScript false (some "3") [("a.gd", "modified")] ["### Engineering"]
      "Ada" "au" "pu" false).exit ≠ ExitKind.failure := by
  constructor
  · decide
  · decide

/-- C8 (amended): only the missing (or empty) PR identifier terminates the
run with a failure signal, with a message; once a PR identifier is present
the run always returns cleanly — in particular the missing-heading and
failed-push cases merely print a diagnostic message and exit 0. -/
theorem c8_exit_behavior (files : List (String × String)) (doc : List String)
    (dn pu prurl : String) (w : Bool) (pr : String) (hpr : pr ≠ "") :
    ((runScript false none files doc dn pu prurl w).exit = ExitKind.failure ∧
      (runScript false none files doc dn pu prurl w).messages ≠ []) ∧
    ((runScript false (some pr) files doc dn pu prurl w).exit = ExitKind.clean ∧
      (runScript false (some pr) files doc dn pu prurl w).messages ≠ []) := by
  have upd : ∀ (pn : String) (dr : Bool),
      (update_authors_md files doc dn pu pn prurl dr w).exit = ExitKind.clean ∧
      (update_authors_md files doc dn pu pn prurl dr w).messages ≠ [] := by
    intro pn dr
    cases happ : applyContribution doc (classifyEvolved files) dn pu pn prurl with
    | error err => simp [update_authors_md, happ]
    | ok r =>
      by_cases hch : r.changed = false
      · simp [update_authors_md, happ, hch]
      · simp only [update_authors_md, happ, hch]
        split_ifs <;> exact ⟨rfl, by simp⟩
  constructor
  · constructor <;> simp [runScript, get_merged_pr_info]
  · simpa [runScript, get_merged_pr_info, hpr] using upd pr false

/-- Witness for the amended C8 at concrete inputs. -/
theorem c8_exit_behavior_witness :
    (runScript false none [] ["### Art"] "Ada" "au" "pu" true).exit =
      ExitKind.failure ∧
    (runScript false (some "3") [] ["### Art"] "Ada" "au" "pu" true).exit =
      ExitKind.clean :=
  ⟨(c8_exit_behavior [] ["### Art"] "Ada" "au" "pu" true "3" (by decide)).1.1,
    (c8_exit_behavior [] ["### Art"] "Ada" "au" "pu" true "3" (by decide)).2.1⟩

/-- C10: Existing contributor with an empty reference block — when the
contributor's entry line is found but the line immediately after it does not
start with the blockquote marker, exactly one reference line is spliced in
directly after the entry line, with no label line, so the resulting block
differs in shape from a freshly inserted contributor block. -/
theorem c10_existing_empty_refs (A B cs : List String)
    (cat dn pu pn prurl e c0 : String)
    (hA : headingFor cat ∉ A)
    (hB : ∀ b ∈ B, pyStartsWith b "### " = false ∧
      pyIn (contributor_format dn pu) b = false)
    (he1 : pyStartsWith e "### " = false)
    (he2 : pyIn (contributor_format dn pu) e = true)
    (hc : pyStartsWith c0 ">" = false) :
    applyContribution (A ++ headingFor cat :: (B ++ e :: (c0 :: cs))) cat dn pu pn prurl =
      .ok ⟨A ++ headingFor cat ::
        (B ++ e :: (("> " ++ contributor_ref_tag_format pn prurl) :: c0 :: cs)),
        true⟩ :=
  apply_existing hA hB he1 he2 (fun r hr => absurd hr (List.not_mem_nil r))
    (Or.inr ⟨c0, cs, rfl, hc⟩)

/-- Witness for C10: Ada has an entry with no reference lines; the new tag
line lands directly under the entry, without a label line. -/
theorem c10_existing_empty_refs_witness :
    applyContribution ["### Engineering", "- [Ada](au)", "### Art"]
      "Engineering" "Ada" "au" "7" "u7" =
      .ok ⟨["### Engineering", "- [Ada](au)", "> [#7](u7)", "### Art"], true⟩ :=
  c10_existing_empty_refs [] [] [] "Engineering" "Ada" "au" "7" "u7"
    "- [Ada](au)" "### Art" (by decide) (by decide) (by decide) (by decide)
    (by decide)

end UpdateAuthors
